import Mathlib

/-!
Verification of `mediatools.py` (concatdv): a shallow embedding of its
preset-driven ffmpeg argument builder, mediainfo report parser, file-list
sorting, and the concatenation runner with its log-monitoring loop.
-/

namespace Concatdv

/-! ### String primitives

Python string operations used by the source, modelled char-by-char on
`String.data` so that everything reduces in the kernel.
-/

/-- Python `s.startswith(pre)`. -/
def strStarts (pre s : String) : Bool :=
  pre.data.isPrefixOf s.data

/-- Python `line.split(": ", 1)[1]`: everything after the first `": "`.
`none` models the `IndexError` raised when `": "` does not occur. -/
def splitPayload : List Char → Option (List Char)
  | [] => none
  | [_] => none
  | c1 :: c2 :: rest =>
    if c1 = ':' ∧ c2 = ' ' then some rest
    else splitPayload (c2 :: rest)

/-- Split a character list on a separator character, keeping empty groups
(the semantics of Python `str.split(sep)` for a one-character separator). -/
def splitOnChar (sep : Char) : List Char → List (List Char)
  | [] => [[]]
  | c :: rest =>
    match splitOnChar sep rest with
    | [] => [[]]
    | grp :: more => if c = sep then [] :: grp :: more else (c :: grp) :: more

def digitsValAux : List Char → Nat → Option Nat
  | [], acc => some acc
  | c :: rest, acc =>
    if c.isDigit then digitsValAux rest (acc * 10 + (c.toNat - '0'.toNat)) else none

/-- Value of a non-empty all-digit character run. -/
def digitsVal (cs : List Char) : Option Nat :=
  if cs = [] then none else digitsValAux cs 0

/-- Python `int(s)` for a plain decimal literal with an optional sign
(surrounding whitespace tolerance is not modelled; no claim exercises it).
`none` models the `ValueError` raised on malformed input. -/
def parseIntOpt (s : String) : Option Int :=
  match s.data with
  | '-' :: rest => (digitsVal rest).map (fun n => -(n : Int))
  | '+' :: rest => (digitsVal rest).map (fun n => (n : Int))
  | l => (digitsVal l).map (fun n => (n : Int))

/-! ### Datetimes -/

/-- A parsed `datetime.datetime` value (date and time of day; the source's
formats carry no sub-second precision beyond a fixed `.000`). -/
structure DateTime where
  year : Nat
  month : Nat
  day : Nat
  hour : Nat
  minute : Nat
  second : Nat
deriving DecidableEq, Repr

/-- Python `datetime.datetime.fromtimestamp(0)` rendered in UTC: the fixed
epoch-origin substitute used for files without a recorded date. -/
def epochDatetime : DateTime := ⟨1970, 1, 1, 0, 0, 0⟩

def validDate (mo da h mi se : Nat) : Prop :=
  1 ≤ mo ∧ mo ≤ 12 ∧ 1 ≤ da ∧ da ≤ 31 ∧ h ≤ 23 ∧ mi ≤ 59 ∧ se ≤ 61

instance (mo da h mi se : Nat) : Decidable (validDate mo da h mi se) := by
  unfold validDate; infer_instance

/-- `datetime.strptime(s, "%Y-%m-%d %H:%M:%S.000")`: date, time, and a
literal `.000` fraction. Field ranges follow strptime's validation. -/
def parseRecorded (s : String) : Option DateTime :=
  match splitOnChar ' ' s.data with
  | [d, t] =>
    match splitOnChar '-' d, splitOnChar ':' t with
    | [y, mo, da], [h, mi, sf] =>
      match splitOnChar '.' sf with
      | [se, frac] =>
        if frac = ['0', '0', '0'] then
          match digitsVal y, digitsVal mo, digitsVal da,
              digitsVal h, digitsVal mi, digitsVal se with
          | some yv, some mov, some dav, some hv, some miv, some sev =>
            if validDate mov dav hv miv sev then
              some ⟨yv, mov, dav, hv, miv, sev⟩
            else none
          | _, _, _, _, _, _ => none
        else none
      | _ => none
    | _, _ => none
  | _ => none

/-- `datetime.strptime(s, "%Z %Y-%m-%d %H:%M:%S")`: a leading timezone
token, then date and time without a fraction. The `%Z` token is modelled
as accepting the fixed names strptime always accepts (`UTC`/`GMT`). -/
def parseTagged (s : String) : Option DateTime :=
  match splitOnChar ' ' s.data with
  | [tz, d, t] =>
    if tz = "UTC".data ∨ tz = "GMT".data then
      match splitOnChar '-' d, splitOnChar ':' t with
      | [y, mo, da], [h, mi, se] =>
        match digitsVal y, digitsVal mo, digitsVal da,
            digitsVal h, digitsVal mi, digitsVal se with
        | some yv, some mov, some dav, some hv, some miv, some sev =>
          if validDate mov dav hv miv sev then
            some ⟨yv, mov, dav, hv, miv, sev⟩
          else none
        | _, _, _, _, _, _ => none
      | _, _ => none
    else none
  | _ => none

/-! ### FileMeta and `MediaTools.get_meta` -/

/-- The per-file metadata record (`meta.FileMeta`): all fields start unset. -/
structure FileMeta where
  datetime : Option DateTime := none
  milliseconds : Option Int := none
  frames : Option Int := none
deriving DecidableEq, Repr

/-- Python truthiness of `not x` for an `Optional[int]` field: `None` and
`0` are falsy, every other integer is truthy. -/
def falsyInt : Option Int → Bool
  | none => true
  | some v => decide (v = 0)

/-- The `Recorded date` branch of the parsing loop. `Except.error` models
the uncaught `IndexError`/`ValueError` from `split`/`strptime`. -/
def recordedStep (m : FileMeta) (line : String) : Except Unit FileMeta :=
  if strStarts "Recorded date" line = true ∧ m.datetime = none then
    match splitPayload line.data with
    | none => .error ()
    | some p =>
      match parseRecorded (String.mk p) with
      | none => .error ()
      | some d => .ok { m with datetime := some d }
  else .ok m

/-- The `Tagged date` branch of the parsing loop. -/
def taggedStep (m : FileMeta) (line : String) : Except Unit FileMeta :=
  if strStarts "Tagged date" line = true ∧ m.datetime = none then
    match splitPayload line.data with
    | none => .error ()
    | some p =>
      match parseTagged (String.mk p) with
      | none => .error ()
      | some d => .ok { m with datetime := some d }
  else .ok m

/-- The `Duration` branch: the `int(...)` call sits inside
`try/except ValueError`, so a malformed value leaves the field unchanged,
while a missing `": "` separator still raises (`IndexError`). -/
def durationStep (m : FileMeta) (line : String) : Except Unit FileMeta :=
  if strStarts "Duration" line = true ∧ falsyInt m.milliseconds = true then
    match splitPayload line.data with
    | none => .error ()
    | some p =>
      match parseIntOpt (String.mk p) with
      | none => .ok m
      | some v => .ok { m with milliseconds := some v }
  else .ok m

/-- The `Frame count` branch: unguarded `int(...)`, so a malformed value
raises. -/
def framesStep (m : FileMeta) (line : String) : Except Unit FileMeta :=
  if strStarts "Frame count" line = true ∧ falsyInt m.frames = true then
    match splitPayload line.data with
    | none => .error ()
    | some p =>
      match parseIntOpt (String.mk p) with
      | none => .error ()
      | some v => .ok { m with frames := some v }
  else .ok m

/-- One iteration of `for line in output.splitlines()`: the four `if`
statements run in sequence on the same line. -/
def processLine (m : FileMeta) (line : String) : Except Unit FileMeta :=
  match recordedStep m line with
  | .error e => .error e
  | .ok m1 =>
    match taggedStep m1 line with
    | .error e => .error e
    | .ok m2 =>
      match durationStep m2 line with
      | .error e => .error e
      | .ok m3 => framesStep m3 line

def metaFold (m : FileMeta) : List String → Except Unit FileMeta
  | [] => .ok m
  | l :: rest =>
    match processLine m l with
    | .error e => .error e
    | .ok m' => metaFold m' rest

/-- `MediaTools.get_meta`, applied to the report already split into lines
(the subprocess capture and `splitlines` are the line source). -/
def get_meta (lines : List String) : Except Unit FileMeta :=
  metaFold {} lines

/-- Stated from the spec's wording for comparison with `get_meta`: the
datetime is determined by the first `Recorded date` or `Tagged date` line
in document order, parsed by its kind. -/
def specFirstDate : List String → Option DateTime
  | [] => none
  | l :: rest =>
    if strStarts "Recorded date" l = true then
      (splitPayload l.data).bind (fun p => parseRecorded (String.mk p))
    else if strStarts "Tagged date" l = true then
      (splitPayload l.data).bind (fun p => parseTagged (String.mk p))
    else specFirstDate rest

/-! ### Presets and `Preset.build_ffmpeg_params` -/

inductive ConcatStrategy where
  | CONCAT_PROTOCOL
  | CONCAT_FILTER
  | CONCAT_DEMUX
deriving DecidableEq, Repr

structure Preset where
  ffmpeg_params : List String
  complex_filters : List String
  description : String
  concat_strategy : ConcatStrategy
deriving DecidableEq, Repr

/-- Python `sep.join(parts)`. -/
def joinSep (sep : String) : List String → String
  | [] => ""
  | [x] => x
  | x :: rest => x ++ sep ++ joinSep sep rest

/-- Python `input_file.replace('\\', '/')`: with a one-character pattern,
`str.replace` is a per-character substitution. -/
def normalizeSlashes (s : String) : String :=
  String.mk (s.data.map (fun c => if c = '\\' then '/' else c))

/-- One directive line of the Demux manifest:
`file 'file:<forward-slash-normalized path>'`. -/
def manifestLine (input_file : String) : String :=
  "file 'file:" ++ normalizeSlashes input_file ++ "'"

/-- `Preset.build_ffmpeg_params`. The Demux strategy's freshly created
temporary file is modelled by its path (`tempfile_path`, chosen by
`tempfile.mkstemp`) and by the list of directive lines written to it,
returned as the second component (empty for the other strategies). -/
def build_ffmpeg_params (p : Preset) (input_files : List String)
    (tempfile_path : String) : List String × List String :=
  match p.concat_strategy with
  | .CONCAT_PROTOCOL =>
    (["-i", "concat:" ++ joinSep "|" input_files] ++ p.ffmpeg_params, [])
  | .CONCAT_FILTER =>
    (((input_files.map (fun f => ["-i", f])).flatten
      ++ ["-filter_complex",
          "concat=n=" ++ toString input_files.length ++ ":v=1:a=1[catv][outa];[catv]"
            ++ joinSep "," p.complex_filters ++ "[outv]"]
      ++ ["-map", "[outv]", "-map", "[outa]"]) ++ p.ffmpeg_params, [])
  | .CONCAT_DEMUX =>
    (["-f", "concat", "-safe", "0", "-i", tempfile_path] ++ p.ffmpeg_params,
     input_files.map manifestLine)

def presetCopy : Preset :=
  ⟨["-c", "copy"], [],
   "Directly copy input to output. Uses the FFMPEG concat demuxer to concatenate without re-encoding. "
     ++ "Only suited for concatenating files with the exact same codecs and parameters (e.g. scenes from a camera).",
   .CONCAT_DEMUX⟩

def presetCopydv : Preset :=
  ⟨["-c", "copy"], [],
   "Directly copy input to output. Only suited for MPEG-2 (includes DV) files with equal codec properties due to "
     ++ "use of the concatenation protocol.",
   .CONCAT_PROTOCOL⟩

def preset1080p : Preset :=
  ⟨["-c:v", "libx265", "-crf", "28", "-preset", "medium", "-c:a", "flac"],
   ["scale=-1:1080"],
   "Transcode to 1080p using libx265 with a CRF of 28 and FLAC audio. Suited for any input format.",
   .CONCAT_FILTER⟩

def preset4k : Preset :=
  ⟨["-c:v", "libx265", "-crf", "28", "-preset", "medium", "-c:a", "flac"],
   ["scale=-1:2160"],
   "Transcode to 4k UHD using libx265 with a CRF of 28 and FLAC audio. Suited for any input format.",
   .CONCAT_FILTER⟩

/-- The fixed preset catalog `encode_presets`. -/
def encode_presets : List (String × Preset) :=
  [("copy", presetCopy), ("copydv", presetCopydv),
   ("1080p", preset1080p), ("4k", preset4k)]

/-- Stated from the claim's wording for comparison with
`build_ffmpeg_params`: the strategy-specific section of the argument
vector that is supposed to precede the encoder arguments. -/
def specStrategyTokens (p : Preset) (input_files : List String)
    (tempfile_path : String) : List String :=
  match p.concat_strategy with
  | .CONCAT_PROTOCOL =>
    ["-i", "concat:" ++ joinSep "|" input_files]
  | .CONCAT_FILTER =>
    (input_files.map (fun f => ["-i", f])).flatten
      ++ ["-filter_complex",
          "concat=n=" ++ toString input_files.length ++ ":v=1:a=1[catv][outa];[catv]"
            ++ joinSep "," p.complex_filters ++ "[outv]"]
      ++ ["-map", "[outv]", "-map", "[outa]"]
  | .CONCAT_DEMUX =>
    ["-f", "concat", "-safe", "0", "-i", tempfile_path]

/-! ### The Demux manifest on disk -/

/-- The bytes written to the manifest: `print(line, file=tf)` emits each
directive line followed by a newline. -/
def manifestContent (lines : List String) : List Char :=
  lines.foldr (fun l acc => l.data ++ '\n' :: acc) []

/-- Text-mode line splitting as a reader of the manifest sees it: one line
per newline-terminated chunk, plus a final unterminated chunk if any. -/
def splitNl : List Char → List (List Char)
  | [] => []
  | c :: rest =>
    if c = '\n' then [] :: splitNl rest
    else
      match splitNl rest with
      | [] => [[c]]
      | l :: ls => (c :: l) :: ls

/-- Reading the manifest back as a list of lines. -/
def readManifest (content : List Char) : List String :=
  (splitNl content).map String.mk

/-! ### `FileList.sort_by_datetime` -/

/-- Comparison key of a `DateTime`: its fields, most significant first
(Python compares `datetime` values lexicographically by field). -/
def DateTime.sortKey (d : DateTime) : List Nat :=
  [d.year, d.month, d.day, d.hour, d.minute, d.second]

/-- Lexicographic `≤` on equal-significance numeric field lists. -/
def lexLe : List Nat → List Nat → Bool
  | [], _ => true
  | _ :: _, [] => false
  | a :: as, b :: bs =>
    if a < b then true else if a = b then lexLe as bs else false

/-- Lexicographic `<` on numeric field lists. -/
def lexLt : List Nat → List Nat → Bool
  | [], [] => false
  | [], _ :: _ => true
  | _ :: _, [] => false
  | a :: as, b :: bs =>
    if a < b then true else if a = b then lexLt as bs else false

/-- `FileList._get_sort_datetime`: the sort key of one path, substituting
the epoch origin when the file's datetime is unset. The metadata mapping
is total on the paths (the `FileList` invariant: `add_file` stores an
entry before any sort runs). -/
def get_sort_datetime (meta : String → Option DateTime) (path : String) : DateTime :=
  match meta path with
  | none => epochDatetime
  | some dt => dt

/-- The sort relation `sorted` uses: ascending by `_get_sort_datetime`. -/
def dtLe (meta : String → Option DateTime) (a b : String) : Prop :=
  lexLe (get_sort_datetime meta a).sortKey (get_sort_datetime meta b).sortKey = true

instance (meta : String → Option DateTime) : DecidableRel (dtLe meta) :=
  fun _ _ => inferInstanceAs (Decidable (_ = true))

/-- `FileList.sort_by_datetime`. Python's `sorted` is a stable ascending
sort and is modelled by insertion sort (extensionally the unique stable
sort for a total preorder). The second component lists the paths for
which the key function emitted its warning-level diagnostic: `sorted`
calls the key once per element, in the list order. -/
def sort_by_datetime (meta : String → Option DateTime) (paths : List String) :
    List String × List String :=
  (paths.insertionSort (dtLe meta),
   paths.filter (fun p => (meta p).isNone))

/-! ### `MediaTools.do_concatenation` -/

/-- State of the progress-monitoring loop: the line read on the current
poll (`test`, where `""` stands for both the initial `None` and an empty
read — they are indistinguishable to the loop's truthiness tests), the
last rendered line (`prev_line`), and the lines rendered so far. -/
structure MonState where
  test : String
  prev_line : String
  rendered : List String
deriving DecidableEq, Repr

/-- Python `s.strip()`: whitespace removed from both ends. -/
def pyStrip (s : String) : String :=
  String.mk (((s.data.dropWhile Char.isWhitespace).reverse.dropWhile
    Char.isWhitespace).reverse)

/-- In-place rendering of one progress line: `line.strip()` plus enough
trailing spaces to cover the previously rendered line. -/
def renderLine (prev_line line : String) : String :=
  let line_shortness : Int := (prev_line.length : Int) - (line.length : Int)
  let padding := if line_shortness > 0 then
      String.mk (List.replicate line_shortness.toNat ' ') else ""
  pyStrip line ++ padding

/-- One iteration of the monitoring loop taken while `proc.poll()` is
still `None`; `r` is what `logfile_in.readline()` returned. -/
def monitorStep (s : MonState) (r : String) : MonState :=
  let line := s.test
  if r = "" then
    if line ≠ "" then
      if strStarts "frame=" line = true then
        ⟨r, line, s.rendered ++ [renderLine s.prev_line line]⟩
      else ⟨r, s.prev_line, s.rendered⟩
    else ⟨r, s.prev_line, s.rendered⟩
  else ⟨r, s.prev_line, s.rendered⟩

/-- The monitoring loop over the sequence of reads observed on the poll
iterations that ran before the process exited. -/
def monitorRun (reads : List String) : MonState :=
  reads.foldl monitorStep ⟨"", "", []⟩

inductive LogSink where
  | devnull
  | file
deriving DecidableEq, Repr

/-- The observable outcome of a completed `do_concatenation` run: the
process's exit code, whether the success message was logged, whether the
failure message was logged, which sink received the process output, and
the progress lines rendered. -/
structure ConcatOutcome where
  returncode : Int
  success : Bool
  errorLogged : Bool
  sink : LogSink
  rendered : List String
deriving DecidableEq, Repr

/-- Modelled from the spec: `util.open_if_exists` is not under `src/`;
per the spec the process output goes to the opened log file, "or
discarded if the file cannot be opened". `canOpenWrite` is whether the
log path can be opened for writing. -/
def open_if_exists (path : Option String) (canOpenWrite : Bool) : Option Unit :=
  match path with
  | none => none
  | some _ => if canOpenWrite then some () else none

/-- `MediaTools.do_concatenation`, abstracted over the environment: the
log path, whether the log file can be opened for writing and for reading,
the monitoring loop's readline results, and the process's exit code.
`Except.error` models an uncaught exception (the monitoring branch runs
`open(logfile_path, "r")` whenever a log path was supplied, which raises
if the log file cannot be opened for reading). -/
def do_concatenation (logfile_path : Option String)
    (canOpenWrite canOpenRead : Bool) (reads : List String)
    (exitCode : Int) : Except Unit ConcatOutcome :=
  let f := open_if_exists logfile_path canOpenWrite
  let sink := match f with
    | some _ => LogSink.file
    | none => LogSink.devnull
  match logfile_path with
  | some _ =>
    if canOpenRead then
      let st := monitorRun reads
      .ok ⟨exitCode, decide (exitCode = 0), decide (exitCode ≠ 0), sink, st.rendered⟩
    else .error ()
  | none =>
    .ok ⟨exitCode, decide (exitCode = 0), decide (exitCode ≠ 0), sink, []⟩

instance : DecidableEq (Except Unit FileMeta) := fun a b =>
  match a, b with
  | .error _, .error _ => isTrue rfl
  | .ok x, .ok y =>
    if h : x = y then isTrue (by rw [h]) else isFalse (fun hc => h (Except.ok.inj hc))
  | .error _, .ok _ => isFalse (fun hc => Except.noConfusion hc)
  | .ok _, .error _ => isFalse (fun hc => Except.noConfusion hc)

/-- The metadata mapping of the spec's datetime-sort example: `x` and `z`
have no recorded date, `y` was recorded on 2020-01-01. -/
def exMetaDT : String → Option DateTime := fun p =>
  if p = "y" then some ⟨2020, 1, 1, 0, 0, 0⟩ else none

/-! ### Order lemmas for the datetime sort -/

theorem lexLe_total : ∀ a b : List Nat, lexLe a b = true ∨ lexLe b a = true
  | [], _ => Or.inl rfl
  | _ :: _, [] => Or.inr rfl
  | a :: as, b :: bs => by
    by_cases h1 : a < b
    · exact Or.inl (by simp [lexLe, h1])
    · by_cases h2 : b < a
      · exact Or.inr (by simp [lexLe, h2])
      · have he : a = b := Nat.le_antisymm (Nat.not_lt.mp h2) (Nat.not_lt.mp h1)
        subst he
        rcases lexLe_total as bs with h | h
        · exact Or.inl (by simp [lexLe, h])
        · exact Or.inr (by simp [lexLe, h])

theorem lexLe_trans : ∀ a b c : List Nat,
    lexLe a b = true → lexLe b c = true → lexLe a c = true
  | [], _, _, _, _ => rfl
  | _ :: _, [], _, h1, _ => by simp [lexLe] at h1
  | _ :: _, _ :: _, [], _, h2 => by simp [lexLe] at h2
  | a :: as, b :: bs, c :: cs, h1, h2 => by
    simp only [lexLe] at h1 h2 ⊢
    by_cases hab : a < b
    · by_cases hbc : b < c
      · simp [Nat.lt_trans hab hbc]
      · by_cases hbc2 : b = c
        · subst hbc2; simp [hab]
        · simp [hbc, hbc2] at h2
    · by_cases hab2 : a = b
      · subst hab2
        by_cases hac : a < c
        · simp [hac]
        · by_cases hac2 : a = c
          · subst hac2
            simp [Nat.lt_irrefl] at h1 h2 ⊢
            exact lexLe_trans as bs cs h1 h2
          · simp [hac, hac2] at h2
      · simp [hab, hab2] at h1

theorem lexLt_not_le : ∀ a b : List Nat,
    lexLt a b = true → lexLe b a = true → False
  | [], [], h1, _ => by simp [lexLt] at h1
  | [], _ :: _, _, h2 => by simp [lexLe] at h2
  | _ :: _, [], h1, _ => by simp [lexLt] at h1
  | a :: as, b :: bs, h1, h2 => by
    simp only [lexLt] at h1
    simp only [lexLe] at h2
    by_cases hab : a < b
    · have hba : ¬ b < a := Nat.lt_asymm hab
      have hne : ¬ b = a := fun h => Nat.lt_irrefl a (h ▸ hab)
      simp [hba, hne] at h2
    · by_cases hab2 : a = b
      · subst hab2
        simp [Nat.lt_irrefl] at h1 h2
        exact lexLt_not_le as bs h1 h2
      · simp [hab, hab2] at h1

/-! ### Preservation lemmas for the metadata parsing loop -/

theorem recordedStep_preserve (m : FileMeta) (l : String) (m1 : FileMeta)
    (h : recordedStep m l = .ok m1) :
    (∀ d, m.datetime = some d → m1.datetime = some d)
    ∧ m1.milliseconds = m.milliseconds ∧ m1.frames = m.frames := by
  unfold recordedStep at h
  split at h
  next hguard =>
    split at h
    next => cases h
    next p hsp =>
      split at h
      next => cases h
      next d hpr =>
        cases h
        refine ⟨fun d' hd' => ?_, rfl, rfl⟩
        rw [hguard.2] at hd'; cases hd'
  next => cases h; exact ⟨fun d hd => hd, rfl, rfl⟩

theorem taggedStep_preserve (m : FileMeta) (l : String) (m1 : FileMeta)
    (h : taggedStep m l = .ok m1) :
    (∀ d, m.datetime = some d → m1.datetime = some d)
    ∧ m1.milliseconds = m.milliseconds ∧ m1.frames = m.frames := by
  unfold taggedStep at h
  split at h
  next hguard =>
    split at h
    next => cases h
    next p hsp =>
      split at h
      next => cases h
      next d hpr =>
        cases h
        refine ⟨fun d' hd' => ?_, rfl, rfl⟩
        rw [hguard.2] at hd'; cases hd'
  next => cases h; exact ⟨fun d hd => hd, rfl, rfl⟩

theorem durationStep_preserve (m : FileMeta) (l : String) (m1 : FileMeta)
    (h : durationStep m l = .ok m1) :
    m1.datetime = m.datetime
    ∧ (∀ v, m.milliseconds = some v → v ≠ 0 → m1.milliseconds = some v)
    ∧ m1.frames = m.frames := by
  unfold durationStep at h
  split at h
  next hguard =>
    have hms : ∀ v : Int, m.milliseconds = some v → v ≠ 0 → False := by
      intro v hv hnz
      have := hguard.2
      rw [hv] at this
      simp [falsyInt] at this
      exact hnz this
    split at h
    next => cases h
    next p hsp =>
      split at h
      next =>
        cases h; exact ⟨rfl, fun v hv hnz => (hms v hv hnz).elim, rfl⟩
      next v hpr =>
        cases h; exact ⟨rfl, fun v hv hnz => (hms v hv hnz).elim, rfl⟩
  next => cases h; exact ⟨rfl, fun v hv _ => hv, rfl⟩

theorem framesStep_preserve (m : FileMeta) (l : String) (m1 : FileMeta)
    (h : framesStep m l = .ok m1) :
    m1.datetime = m.datetime
    ∧ m1.milliseconds = m.milliseconds
    ∧ (∀ v, m.frames = some v → v ≠ 0 → m1.frames = some v) := by
  unfold framesStep at h
  split at h
  next hguard =>
    have hfr : ∀ v : Int, m.frames = some v → v ≠ 0 → False := by
      intro v hv hnz
      have := hguard.2
      rw [hv] at this
      simp [falsyInt] at this
      exact hnz this
    split at h
    next => cases h
    next p hsp =>
      split at h
      next => cases h
      next v hpr =>
        cases h; exact ⟨rfl, rfl, fun v hv hnz => (hfr v hv hnz).elim⟩
  next => cases h; exact ⟨rfl, rfl, fun v hv _ => hv⟩

theorem processLine_preserve (m : FileMeta) (l : String) (m' : FileMeta)
    (h : processLine m l = .ok m') :
    (∀ d, m.datetime = some d → m'.datetime = some d)
    ∧ (∀ v, m.milliseconds = some v → v ≠ 0 → m'.milliseconds = some v)
    ∧ (∀ v, m.frames = some v → v ≠ 0 → m'.frames = some v) := by
  unfold processLine at h
  split at h
  next => cases h
  next m1 h1 =>
    split at h
    next => cases h
    next m2 h2 =>
      split at h
      next => cases h
      next m3 h3 =>
        obtain ⟨r1, r2, r3⟩ := recordedStep_preserve m l m1 h1
        obtain ⟨t1, t2, t3⟩ := taggedStep_preserve m1 l m2 h2
        obtain ⟨d1, d2, d3⟩ := durationStep_preserve m2 l m3 h3
        obtain ⟨f1, f2, f3⟩ := framesStep_preserve m3 l m' h
        refine ⟨fun d hd => ?_, fun v hv hnz => ?_, fun v hv hnz => ?_⟩
        · rw [f1, d1]; exact t1 d (r1 d hd)
        · exact f2 ▸ d2 v (t2 ▸ r2 ▸ hv) hnz
        · exact f3 v (d3 ▸ t3 ▸ r3 ▸ hv) hnz

theorem metaFold_preserve : ∀ (lines : List String) (m₀ m' : FileMeta),
    metaFold m₀ lines = .ok m' →
    (∀ d, m₀.datetime = some d → m'.datetime = some d)
    ∧ (∀ v, m₀.milliseconds = some v → v ≠ 0 → m'.milliseconds = some v)
    ∧ (∀ v, m₀.frames = some v → v ≠ 0 → m'.frames = some v)
  | [], _, _, h => by
    cases h; exact ⟨fun d hd => hd, fun v hv _ => hv, fun v hv _ => hv⟩
  | l :: rest, m₀, m', h => by
    unfold metaFold at h
    split at h
    next => cases h
    next m₁ hp =>
      obtain ⟨p1, p2, p3⟩ := processLine_preserve m₀ l m₁ hp
      obtain ⟨q1, q2, q3⟩ := metaFold_preserve rest m₁ m' h
      exact ⟨fun d hd => q1 d (p1 d hd),
        fun v hv hnz => q2 v (p2 v hv hnz) hnz,
        fun v hv hnz => q3 v (p3 v hv hnz) hnz⟩

theorem processLine_recorded (m : FileMeta) (l : String) (m' : FileMeta)
    (h0 : m.datetime = none) (hR : strStarts "Recorded date" l = true)
    (h : processLine m l = .ok m') :
    ∃ d, (splitPayload l.data).bind (fun p => parseRecorded (String.mk p)) = some d
      ∧ m'.datetime = some d := by
  unfold processLine at h
  split at h
  next => cases h
  next m1 h1 =>
    unfold recordedStep at h1
    rw [if_pos ⟨hR, h0⟩] at h1
    split at h1
    next => cases h1
    next p hsp =>
      split at h1
      next => cases h1
      next d hpr =>
        cases h1
        refine ⟨d, by rw [hsp]; simpa using hpr, ?_⟩
        split at h
        next => cases h
        next m2 h2 =>
          split at h
          next => cases h
          next m3 h3 =>
            have hd1 : m2.datetime = some d :=
              (taggedStep_preserve _ l m2 h2).1 d rfl
            have hd2 : m3.datetime = some d :=
              (durationStep_preserve m2 l m3 h3).1 ▸ hd1
            rw [(framesStep_preserve m3 l m' h).1, hd2]

theorem processLine_tagged (m : FileMeta) (l : String) (m' : FileMeta)
    (h0 : m.datetime = none) (hR : strStarts "Recorded date" l = false)
    (hT : strStarts "Tagged date" l = true)
    (h : processLine m l = .ok m') :
    ∃ d, (splitPayload l.data).bind (fun p => parseTagged (String.mk p)) = some d
      ∧ m'.datetime = some d := by
  unfold processLine at h
  split at h
  next => cases h
  next m1 h1 =>
    have e1 : recordedStep m l = .ok m := by
      unfold recordedStep; rw [if_neg (by simp [hR])]
    rw [e1] at h1
    cases h1
    split at h
    next => cases h
    next m2 h2 =>
      unfold taggedStep at h2
      rw [if_pos ⟨hT, h0⟩] at h2
      split at h2
      next => cases h2
      next p hsp =>
        split at h2
        next => cases h2
        next d hpr =>
          cases h2
          refine ⟨d, by rw [hsp]; simpa using hpr, ?_⟩
          split at h
          next => cases h
          next m3 h3 =>
            have hd2 : m3.datetime = some d :=
              (durationStep_preserve _ l m3 h3).1 ▸ rfl
            rw [(framesStep_preserve m3 l m' h).1, hd2]

theorem processLine_nodate (m : FileMeta) (l : String) (m' : FileMeta)
    (hR : strStarts "Recorded date" l = false)
    (hT : strStarts "Tagged date" l = false)
    (h : processLine m l = .ok m') :
    m'.datetime = m.datetime := by
  unfold processLine at h
  split at h
  next => cases h
  next m1 h1 =>
    have e1 : recordedStep m l = .ok m := by
      unfold recordedStep; rw [if_neg (by simp [hR])]
    rw [e1] at h1
    cases h1
    split at h
    next => cases h
    next m2 h2 =>
      have e2 : taggedStep m l = .ok m := by
        unfold taggedStep; rw [if_neg (by simp [hT])]
      rw [e2] at h2
      cases h2
      split at h
      next => cases h
      next m3 h3 =>
        rw [(framesStep_preserve m3 l m' h).1,
          (durationStep_preserve m l m3 h3).1]

theorem metaFold_first_date : ∀ (lines : List String) (m₀ m : FileMeta),
    m₀.datetime = none → metaFold m₀ lines = .ok m →
    m.datetime = specFirstDate lines
  | [], m₀, m, h0, h => by
    cases h; exact h0
  | l :: rest, m₀, m, h0, h => by
    unfold metaFold at h
    split at h
    next => cases h
    next m₁ hp =>
      unfold specFirstDate
      cases hR : strStarts "Recorded date" l with
      | true =>
        obtain ⟨d, hbind, hdt⟩ := processLine_recorded m₀ l m₁ h0 hR hp
        rw [if_pos rfl, hbind]
        exact (metaFold_preserve rest m₁ m h).1 d hdt
      | false =>
        rw [if_neg (by simp)]
        cases hT : strStarts "Tagged date" l with
        | true =>
          obtain ⟨d, hbind, hdt⟩ := processLine_tagged m₀ l m₁ h0 hR hT hp
          rw [if_pos rfl, hbind]
          exact (metaFold_preserve rest m₁ m h).1 d hdt
        | false =>
          rw [if_neg (by simp)]
          exact metaFold_first_date rest m₁ m
            ((processLine_nodate m₀ l m₁ hR hT hp).trans h0) h

/-! ### Skipping unrecognized report lines -/

theorem processLine_skip (m : FileMeta) (l : String)
    (h1 : strStarts "Recorded date" l = false)
    (h2 : strStarts "Tagged date" l = false)
    (h3 : strStarts "Duration" l = false)
    (h4 : strStarts "Frame count" l = false) :
    processLine m l = .ok m := by
  have e1 : recordedStep m l = .ok m := by
    unfold recordedStep; rw [if_neg (by simp [h1])]
  have e2 : taggedStep m l = .ok m := by
    unfold taggedStep; rw [if_neg (by simp [h2])]
  have e3 : durationStep m l = .ok m := by
    unfold durationStep; rw [if_neg (by simp [h3])]
  have e4 : framesStep m l = .ok m := by
    unfold framesStep; rw [if_neg (by simp [h4])]
  unfold processLine
  rw [e1]
  show (match taggedStep m l with
    | .error e => .error e
    | .ok m2 =>
      match durationStep m2 l with
      | .error e => .error e
      | .ok m3 => framesStep m3 l) = Except.ok m
  rw [e2]
  show (match durationStep m l with
    | .error e => .error e
    | .ok m3 => framesStep m3 l) = Except.ok m
  rw [e3]
  show framesStep m l = Except.ok m
  exact e4

theorem metaFold_skip : ∀ (lines : List String) (m : FileMeta),
    (∀ l ∈ lines, strStarts "Recorded date" l = false
      ∧ strStarts "Tagged date" l = false
      ∧ strStarts "Duration" l = false
      ∧ strStarts "Frame count" l = false) →
    metaFold m lines = .ok m
  | [], _, _ => rfl
  | l :: rest, m, h => by
    have hl := h l (List.mem_cons_self l rest)
    unfold metaFold
    rw [processLine_skip m l hl.1 hl.2.1 hl.2.2.1 hl.2.2.2]
    exact metaFold_skip rest m (fun x hx => h x (List.mem_cons_of_mem l hx))

/-! ### Manifest round-trip lemmas -/

theorem mk_data (s : String) : String.mk s.data = s := rfl

theorem splitNl_line (l : List Char) (rest : List Char) (hl : '\n' ∉ l) :
    splitNl (l ++ '\n' :: rest) = l :: splitNl rest := by
  induction l with
  | nil => simp [splitNl]
  | cons c cs ih =>
    have hc : ¬ c = '\n' := fun h => hl (h ▸ List.mem_cons_self c cs)
    have hcs : '\n' ∉ cs := fun hm => hl (List.mem_cons_of_mem c hm)
    rw [List.cons_append]
    simp only [splitNl]
    rw [if_neg hc, ih hcs]

theorem manifestLine_no_nl (f : String) (hf : '\n' ∉ f.data) :
    '\n' ∉ (manifestLine f).data := by
  unfold manifestLine normalizeSlashes
  rw [String.data_append, String.data_append]
  intro hmem
  rcases List.mem_append.mp hmem with hmem | hmem
  · rcases List.mem_append.mp hmem with hmem | hmem
    · exact absurd hmem (by decide)
    · rcases List.mem_map.mp hmem with ⟨c, hc, hceq⟩
      by_cases hcb : c = '\\'
      · rw [hcb] at hceq; simp at hceq
      · rw [if_neg hcb] at hceq
        exact hf (hceq ▸ hc)
  · exact absurd hmem (by decide)

theorem readManifest_content : ∀ (ls : List String),
    (∀ l ∈ ls, '\n' ∉ l.data) →
    readManifest (manifestContent ls) = ls
  | [], _ => rfl
  | l :: rest, h => by
    have ih := readManifest_content rest (fun x hx => h x (List.mem_cons_of_mem l hx))
    unfold readManifest manifestContent at ih ⊢
    simp only [List.foldr_cons]
    rw [splitNl_line _ _ (h l (List.mem_cons_self l rest)), List.map_cons, mk_data, ih]

theorem metaFold_append (xs ys : List String) (m₀ mm : FileMeta)
    (h : metaFold m₀ xs = .ok mm) :
    metaFold m₀ (xs ++ ys) = metaFold mm ys := by
  induction xs generalizing m₀ with
  | nil => cases h; rfl
  | cons x xs ih =>
    rw [List.cons_append]
    simp only [metaFold] at h ⊢
    split at h
    next => cases h
    next m1 hp =>
      try rw [hp]
      exact ih m1 h

/-! ### Claim theorems -/

/-- C1: for every preset in the catalog and every list of input paths,
`build_ffmpeg_params` returns the strategy-specific token section mandated
by the preset's `ConcatStrategy` (Protocol: `-i` plus one compound
`concat:`-joined token; Filter: one `-i <path>` pair per input in order,
one `-filter_complex` graph token, then the two `-map` output labels;
Demux: `-f concat -safe 0 -i <manifest path>`), followed verbatim by the
preset's fixed encoder argument tokens, identically for all strategies. -/
theorem build_ffmpeg_params_strategy_shape (name : String) (p : Preset)
    (hmem : (name, p) ∈ encode_presets) (input_files : List String)
    (tempfile_path : String) :
    (build_ffmpeg_params p input_files tempfile_path).1
      = specStrategyTokens p input_files tempfile_path ++ p.ffmpeg_params := by
  simp only [encode_presets, List.mem_cons, List.not_mem_nil, or_false,
    Prod.mk.injEq] at hmem
  rcases hmem with ⟨-, rfl⟩ | ⟨-, rfl⟩ | ⟨-, rfl⟩ | ⟨-, rfl⟩ <;> rfl

theorem build_ffmpeg_params_strategy_shape_witness :
    (build_ffmpeg_params presetCopy ["a", "b"] "tmp").1
      = specStrategyTokens presetCopy ["a", "b"] "tmp" ++ presetCopy.ffmpeg_params :=
  build_ffmpeg_params_strategy_shape "copy" presetCopy
    (by simp [encode_presets]) ["a", "b"] "tmp"

/-- C2: whenever `do_concatenation` completes with an outcome, that
outcome is a success exactly when the process exit code is zero, the exit
code is preserved in the outcome, and a non-zero exit logged the failure
diagnostic — regardless of log path, sink openability, or log content. -/
theorem do_concatenation_exit_outcome (lp : Option String) (cw cr : Bool)
    (reads : List String) (ec : Int) (out : ConcatOutcome)
    (h : do_concatenation lp cw cr reads ec = .ok out) :
    (out.success = true ↔ ec = 0) ∧ out.returncode = ec
      ∧ (ec ≠ 0 → out.errorLogged = true) := by
  unfold do_concatenation at h
  rcases lp with _ | path
  · cases h
    exact ⟨by simp, rfl, fun hne => by simp [hne]⟩
  · cases cr with
    | false => cases h
    | true =>
      cases h
      exact ⟨by simp, rfl, fun hne => by simp [hne]⟩

theorem do_concatenation_exit_outcome_witness :
    ((ConcatOutcome.mk 1 false true LogSink.devnull []).success = true ↔ (1 : Int) = 0)
    ∧ (ConcatOutcome.mk 1 false true LogSink.devnull []).returncode = 1
    ∧ ((1 : Int) ≠ 0 → (ConcatOutcome.mk 1 false true LogSink.devnull []).errorLogged = true) :=
  do_concatenation_exit_outcome none true true [] 1
    (ConcatOutcome.mk 1 false true LogSink.devnull []) rfl

/-- C3 counterexample: in a report where a `Tagged date` line precedes the
`Recorded date` line, `get_meta` keeps the Tagged-date value, although the
`Recorded date` line is present and parses to a different timestamp — the
Recorded date does not win when a Tagged date line comes first. -/
theorem get_meta_earlier_tagged_wins :
    get_meta ["Tagged date: UTC 2021-06-01 10:00:00",
        "Recorded date: 2021-05-01 12:00:00.000"]
      = .ok ⟨some ⟨2021, 6, 1, 10, 0, 0⟩, none, none⟩
    ∧ parseRecorded "2021-05-01 12:00:00.000" = some ⟨2021, 5, 1, 12, 0, 0⟩
    ∧ (⟨2021, 6, 1, 10, 0, 0⟩ : DateTime) ≠ ⟨2021, 5, 1, 12, 0, 0⟩ :=
  ⟨rfl, rfl, by decide⟩

/-- C3 amended: whenever `get_meta` completes without an exception, its
datetime field equals the value of the first line in document order that
is either a `Recorded date` or a `Tagged date` line (parsed per its
kind) — so the Recorded date wins only when no Tagged date line precedes
it, and once set the field is never overwritten by later lines. -/
theorem get_meta_datetime_first_date_line (lines : List String) (m : FileMeta)
    (h : get_meta lines = .ok m) : m.datetime = specFirstDate lines :=
  metaFold_first_date lines {} m rfl h

theorem get_meta_datetime_first_date_line_witness :
    (FileMeta.mk (some ⟨2021, 5, 1, 12, 0, 0⟩) none none).datetime
      = specFirstDate ["Recorded date: 2021-05-01 12:00:00.000"] :=
  get_meta_datetime_first_date_line ["Recorded date: 2021-05-01 12:00:00.000"]
    (FileMeta.mk (some ⟨2021, 5, 1, 12, 0, 0⟩) none none) rfl

/-- C4 counterexample: for an input path containing a newline, reading the
Demux manifest back does not yield one directive line per input path — the
round trip of the claim fails for such paths. -/
theorem manifest_newline_breaks_roundtrip :
    readManifest (manifestContent ((build_ffmpeg_params presetCopy ["a\nb"] "t").2))
      ≠ (build_ffmpeg_params presetCopy ["a\nb"] "t").2 := by
  decide

/-- C4 amended: for every Demux-strategy preset and every list of input
paths containing no newline character, `build_ffmpeg_params` writes
exactly one manifest directive line per input path, in order, of the
shape `file 'file:<path>'` with backslashes replaced by forward slashes,
and reading the manifest back yields exactly those lines. -/
theorem demux_manifest_roundtrip (p : Preset)
    (hp : p.concat_strategy = .CONCAT_DEMUX) (paths : List String)
    (tempfile_path : String) (hnl : ∀ f ∈ paths, '\n' ∉ f.data) :
    (build_ffmpeg_params p paths tempfile_path).2 = paths.map manifestLine
    ∧ readManifest (manifestContent ((build_ffmpeg_params p paths tempfile_path).2))
      = paths.map manifestLine := by
  have h2 : (build_ffmpeg_params p paths tempfile_path).2 = paths.map manifestLine := by
    unfold build_ffmpeg_params
    rw [hp]
  refine ⟨h2, ?_⟩
  rw [h2]
  apply readManifest_content
  intro l hl
  rcases List.mem_map.mp hl with ⟨f, hf, rfl⟩
  exact manifestLine_no_nl f (hnl f hf)

theorem demux_manifest_roundtrip_witness :
    (build_ffmpeg_params presetCopy ["a", "b\\c"] "t").2
        = ["a", "b\\c"].map manifestLine
    ∧ readManifest (manifestContent ((build_ffmpeg_params presetCopy ["a", "b\\c"] "t").2))
        = ["a", "b\\c"].map manifestLine :=
  demux_manifest_roundtrip presetCopy rfl ["a", "b\\c"] "t" (by decide)

/-- C5 counterexample: on an iteration where the prior-read line begins
with `frame=` but the current read returns a newer line, nothing is
rendered — the rendering does not happen "whether or not a newer line was
also available". -/
theorem monitor_skips_render_when_new_line_available :
    strStarts "frame=" "frame=1 abcdef\n" = true
    ∧ (monitorRun ["frame=1 abcdef\n", "frame=2 xyz\n"]).rendered = [] :=
  ⟨rfl, rfl⟩

/-- C5 amended: on a poll iteration taken while the process has not
exited, the prior-read line is rendered in place and remembered as the new
previous-rendered-line baseline exactly when the current read yields no
new line and that prior line is non-empty and begins with `frame=`;
whenever any of these conditions fails — a newer line was available, or
the prior line is empty or not a progress line — the iteration renders
nothing and keeps the baseline. -/
theorem monitorStep_render_iff_no_new_line (s : MonState) (r : String) :
    (r = "" → s.test ≠ "" → strStarts "frame=" s.test = true →
      monitorStep s r = ⟨r, s.test, s.rendered ++ [renderLine s.prev_line s.test]⟩)
    ∧ (¬ (r = "" ∧ s.test ≠ "" ∧ strStarts "frame=" s.test = true) →
      monitorStep s r = ⟨r, s.prev_line, s.rendered⟩) := by
  constructor
  · intro h1 h2 h3
    simp only [monitorStep]
    rw [if_pos h1, if_pos h2, if_pos h3]
  · intro h
    simp only [monitorStep]
    by_cases h1 : r = ""
    · rw [if_pos h1]
      by_cases h2 : s.test ≠ ""
      · rw [if_pos h2]
        by_cases h3 : strStarts "frame=" s.test = true
        · exact absurd ⟨h1, h2, h3⟩ h
        · rw [if_neg h3]
      · rw [if_neg h2]
    · rw [if_neg h1]

theorem monitorStep_render_iff_no_new_line_witness :
    monitorStep ⟨"frame=1\n", "", []⟩ ""
      = ⟨"", "frame=1\n", [renderLine "" "frame=1\n"]⟩ :=
  (monitorStep_render_iff_no_new_line ⟨"frame=1\n", "", []⟩ "").1 rfl
    (by decide) (by decide)

/-- C6: rendering a `frame=` progress line pads its stripped content with
trailing spaces covering the previously rendered line; with a previous
line of length 20 and a new line of length 8, exactly 12 padding spaces
are appended to the new line's own content. -/
theorem renderLine_padding (prev line : String)
    (_hf : strStarts "frame=" line = true)
    (hp : prev.length = 20) (hl : line.length = 8) :
    renderLine prev line = pyStrip line ++ String.mk (List.replicate 12 ' ') := by
  simp only [renderLine, hp, hl]
  norm_num
  rfl

theorem renderLine_padding_witness :
    renderLine "frame=10 fps=25 abcd" "frame=12" = "frame=12            " := by
  have h := renderLine_padding "frame=10 fps=25 abcd" "frame=12"
    (by decide) (by decide) (by decide)
  rw [h]
  decide

/-- C7: `sort_by_datetime` returns a permutation of the paths that is
sorted ascending by each file's datetime sort key (the metadata datetime,
with the fixed epoch origin substituted when it is unset), so that every
path with an unset datetime is placed ahead of every path whose recorded
datetime is later than the epoch, and a warning diagnostic names each
datetime-less path. -/
theorem sort_by_datetime_spec (meta : String → Option DateTime) (paths : List String) :
    List.Perm (sort_by_datetime meta paths).1 paths
    ∧ List.Sorted (dtLe meta) (sort_by_datetime meta paths).1
    ∧ (∀ i j : Fin (sort_by_datetime meta paths).1.length, ∀ d : DateTime,
        meta ((sort_by_datetime meta paths).1.get i) = none →
        meta ((sort_by_datetime meta paths).1.get j) = some d →
        lexLt epochDatetime.sortKey d.sortKey = true →
        (i : ℕ) < (j : ℕ))
    ∧ (∀ p ∈ paths, meta p = none → p ∈ (sort_by_datetime meta paths).2) := by
  haveI ht : IsTotal String (dtLe meta) := ⟨fun a b => lexLe_total _ _⟩
  haveI htr : IsTrans String (dtLe meta) := ⟨fun a b c => lexLe_trans _ _ _⟩
  have hsorted : ((sort_by_datetime meta paths).1).Sorted (dtLe meta) :=
    List.sorted_insertionSort _ _
  refine ⟨List.perm_insertionSort _ _, hsorted, ?_, ?_⟩
  · intro i j d hni hsj hlt
    rcases Nat.lt_trichotomy (i : ℕ) (j : ℕ) with hlt2 | heq | hgt
    · exact hlt2
    · exfalso
      have hij : i = j := Fin.ext heq
      rw [hij, hsj] at hni
      cases hni
    · exfalso
      have hrel : dtLe meta ((sort_by_datetime meta paths).1.get j)
          ((sort_by_datetime meta paths).1.get i) :=
        hsorted.rel_get_of_lt (Fin.lt_def.mpr hgt)
      unfold dtLe get_sort_datetime at hrel
      rw [hni, hsj] at hrel
      exact lexLt_not_le _ _ hlt hrel
  · intro p hp hnone
    unfold sort_by_datetime
    simp [List.mem_filter, hp, hnone]

theorem sort_by_datetime_spec_witness :
    "x" ∈ (sort_by_datetime exMetaDT ["x", "y", "z"]).2 ∧ (0 : ℕ) < 2 :=
  ⟨(sort_by_datetime_spec exMetaDT ["x", "y", "z"]).2.2.2 "x" (by decide) (by decide),
   (sort_by_datetime_spec exMetaDT ["x", "y", "z"]).2.2.1 ⟨0, by decide⟩ ⟨2, by decide⟩
     ⟨2020, 1, 1, 0, 0, 0⟩ (by decide) (by decide) (by decide)⟩

/-- C8 counterexample: a `Duration` field already set to zero is
overwritten by a later `Duration` line, because Python truthiness treats a
stored zero like an unset field — so a field set to zero is not kept. -/
theorem get_meta_zero_duration_overwritten :
    get_meta ["Duration: 0", "Duration: 500"] = .ok ⟨none, some 500, none⟩
    ∧ get_meta ["Duration: 0", "Duration: 500"] ≠ .ok ⟨none, some 0, none⟩ :=
  ⟨rfl, by decide⟩

/-- C8 amended: once a field has been set by an earlier report line, later
lines with the same label are ignored — for the datetime always, and for
`Duration` and `Frame count` whenever the stored value is non-zero (a
stored zero counts as falsy and may be overwritten). -/
theorem get_meta_nonzero_first_match_wins (pre post : List String)
    (m m' : FileMeta) (h1 : get_meta pre = .ok m)
    (h2 : get_meta (pre ++ post) = .ok m') :
    (∀ d, m.datetime = some d → m'.datetime = some d)
    ∧ (∀ v, m.milliseconds = some v → v ≠ 0 → m'.milliseconds = some v)
    ∧ (∀ v, m.frames = some v → v ≠ 0 → m'.frames = some v) := by
  unfold get_meta at h1 h2
  rw [metaFold_append pre post {} m h1] at h2
  exact metaFold_preserve post m m' h2

theorem get_meta_nonzero_first_match_wins_witness :
    (FileMeta.mk none (some 42) none).milliseconds = some 42 :=
  (get_meta_nonzero_first_match_wins ["Duration: 42"] ["Duration: 7"]
      (FileMeta.mk none (some 42) none) (FileMeta.mk none (some 42) none)
      rfl rfl).2.1 42 rfl (by decide)

/-- C9 counterexample: a malformed `Frame count` value makes `get_meta`
raise (the `int(...)` call is not guarded), so a malformed field is not
universally non-fatal. -/
theorem get_meta_malformed_frame_count_raises :
    get_meta ["Frame count: abc"] = Except.error () := rfl

/-- C9 amended: report lines matching none of the four labels leave every
field unset without an exception, and a malformed `Duration` value is
silently ignored; but a malformed `Recorded date`, `Tagged date`, or
`Frame count` value raises an exception. -/
theorem get_meta_parse_miss_behavior :
    (∀ lines : List String,
      (∀ l ∈ lines, strStarts "Recorded date" l = false
        ∧ strStarts "Tagged date" l = false
        ∧ strStarts "Duration" l = false
        ∧ strStarts "Frame count" l = false) →
      get_meta lines = .ok {})
    ∧ get_meta ["Duration: not-a-number"] = .ok {}
    ∧ get_meta ["Recorded date: garbage"] = .error ()
    ∧ get_meta ["Tagged date: garbage"] = .error ()
    ∧ get_meta ["Frame count: garbage"] = .error () :=
  ⟨fun lines h => metaFold_skip lines {} h, rfl, rfl, rfl, rfl⟩

theorem get_meta_parse_miss_behavior_witness :
    get_meta ["Complete name: a.mp4"] = .ok {} :=
  get_meta_parse_miss_behavior.1 ["Complete name: a.mp4"] (by decide)

/-- C10 counterexample: with a log path whose file cannot be opened for
writing nor for reading, the run does not proceed to completion — the
monitoring branch reopens the log path for reading and raises. -/
theorem do_concatenation_unopenable_log_raises :
    do_concatenation (some "log.txt") false false [] 0 = Except.error () := rfl

/-- C10 amended: when the log file cannot be opened for writing, process
output is discarded into the null sink, and the run completes with a
normal outcome provided the log path can still be opened for reading; if
the read-side open also fails, the monitoring branch raises instead of
reporting an outcome. -/
theorem do_concatenation_logsink_fallback (path : String)
    (reads : List String) (ec : Int) :
    (∃ out, do_concatenation (some path) false true reads ec = .ok out
      ∧ out.sink = LogSink.devnull ∧ out.returncode = ec
      ∧ (out.success = true ↔ ec = 0))
    ∧ do_concatenation (some path) false false reads ec = .error () := by
  refine ⟨⟨⟨ec, decide (ec = 0), decide (ec ≠ 0), LogSink.devnull,
    (monitorRun reads).rendered⟩, rfl, rfl, rfl, ?_⟩, rfl⟩
  simp

end Concatdv
